import Mathlib

/-!
# Verification of the trading-platform signal pipeline

A shallow embedding of the repository's core logic:

* `service-a/src/signals.ts` — `generateMockSignal` (namespace `ServiceA`);
* `service-b/src/trading.ts` — `getAssetPrice`, `storeTradeHistory`,
  `calculateTradeValue` (namespace `Trading`);
* `service-b/src/index.ts` — the inlined `getAssetPrice` /
  `storeTradeHistory` copies, `processTrade`, and the consumer's message
  handler (namespace `ServiceB`).

JavaScript numbers are modelled as exact rationals (`ℚ`); every number the
program renders or parses is a nonnegative multiple of `1/100`, for which
the rational model and IEEE doubles agree.  The NaN result of
`parseFloat` on a non-numeral string is outside the rational model and is
mapped to `0`; no reachable store of this program contains such a string.

Redis is modelled as an explicit state (`RedisState`) holding the string
keyspace with expiry times, the list keyspace, a trace of issued commands
and a fault schedule that lets the environment make any individual command
throw, which is how the `try/catch` acknowledgment logic and the
non-atomicity of the three-step recording sequence are exercised.
-/

/-! ## Decimal numerals

The program stores prices in Redis as strings (`newPrice.toString()`),
reads them back with `parseFloat`, renders trade values with
`(volume * price).toFixed(2)`, and Redis's `INCR` itself parses and
reprints the stored counter numeral.  These definitions model exactly the
numeral shapes this program produces: nonnegative decimal digit strings,
optionally with one or two fraction digits. -/

/-- The decimal digit character for `d` (meaningful for `d < 10`). -/
def digitChar (d : ℕ) : Char := Char.ofNat (48 + d)

/-- Fuel-driven digit expansion; `fuel` bounds the recursion depth so the
definition is structural and kernel-reducible. -/
def natCharsGo : ℕ → ℕ → List Char
  | 0, _ => []
  | fuel + 1, n => if n < 10 then [digitChar n] else natCharsGo fuel (n / 10) ++ [digitChar (n % 10)]

/-- The decimal digit characters of `n`, most significant first. -/
def natChars (n : ℕ) : List Char := natCharsGo (n + 1) n

/-- Decimal rendering of a natural number (`String(n)` in JS, and the
numeral Redis stores back after `INCR`). -/
def natToString (n : ℕ) : String := ⟨natChars n⟩

/-- Numeric value of a digit character. -/
def charVal (c : Char) : ℕ := c.toNat - 48

/-- Horner evaluation of a digit-character list. -/
def digitsVal (cs : List Char) : ℕ := cs.foldl (fun a c => a * 10 + charVal c) 0

/-- Model of JS `parseFloat` on the numeral shapes this program produces:
longest digit run, then an optional point and a fraction digit run.
Strings with no leading digits (JS `NaN`) map to `0`; signs, exponents
and whitespace never occur in this program's stores and are not modelled. -/
def jsParseFloat (s : String) : ℚ :=
  let intPart := s.data.takeWhile (·.isDigit)
  let rest := s.data.dropWhile (·.isDigit)
  match rest with
  | c :: cs =>
    if c = ('.' : Char) then
      let fracPart := cs.takeWhile (·.isDigit)
      (digitsVal intPart : ℚ) + (digitsVal fracPart : ℚ) / 10 ^ fracPart.length
    else (digitsVal intPart : ℚ)
  | [] => (digitsVal intPart : ℚ)

/-- The integer-numeral parse Redis's `INCR` applies to a stored value,
restricted to the nonnegative numerals this program ever stores. -/
def redisNatOf (s : String) : ℕ := digitsVal (s.data.takeWhile (·.isDigit))

/-- Rounding to two decimal places:
`parseFloat(x.toFixed(2))` on a (nonnegative) number. -/
def roundTo2 (q : ℚ) : ℚ := (round (q * 100) : ℚ) / 100

/-- JS `Number.prototype.toString` (shortest decimal form) for the
nonnegative multiples of `1/100` this program renders: drops the fraction
part when zero and a trailing zero fraction digit. `m` is the value in
hundredths. -/
def hundredthsToString (m : ℕ) : String :=
  if m % 100 = 0 then ⟨natChars (m / 100)⟩
  else if m % 10 = 0 then ⟨natChars (m / 100) ++ [('.' : Char), digitChar (m % 100 / 10)]⟩
  else ⟨natChars (m / 100) ++ [('.' : Char), digitChar (m % 100 / 10), digitChar (m % 10)]⟩

/-- JS `Number.prototype.toString` on the nonnegative 2-decimal values this
program produces (`newPrice.toString()`). -/
def numToString (q : ℚ) : String := hundredthsToString (q * 100).num.toNat

/-- JS `x.toFixed(2)` on a nonnegative number: round to hundredths, render
with exactly two fraction digits. -/
def toFixed2 (q : ℚ) : String :=
  let m := (round (q * 100)).toNat
  ⟨natChars (m / 100) ++ [('.' : Char), digitChar (m % 100 / 10), digitChar (m % 10)]⟩

/-! ### Round-trip lemmas for the numeral layer -/

theorem natCharsGo_congr (n : ℕ) : ∀ f₁ f₂, n < f₁ → n < f₂ → natCharsGo f₁ n = natCharsGo f₂ n := by
  induction n using Nat.strong_induction_on with
  | _ n ih =>
    intro f₁ f₂ h₁ h₂
    match f₁, f₂ with
    | g₁ + 1, g₂ + 1 =>
      simp only [natCharsGo]
      by_cases hlt : n < 10
      · rw [if_pos hlt, if_pos hlt]
      · rw [if_neg hlt, if_neg hlt]
        have hd : n / 10 < n := Nat.div_lt_self (by omega) (by omega)
        rw [ih (n / 10) hd g₁ (n / 10 + 1) (by omega) (by omega),
          ih (n / 10) hd g₂ (n / 10 + 1) (by omega) (by omega)]

theorem natChars_eq (n : ℕ) :
    natChars n = if n < 10 then [digitChar n] else natChars (n / 10) ++ [digitChar (n % 10)] := by
  rw [natChars]
  simp only [natCharsGo]
  by_cases hlt : n < 10
  · rw [if_pos hlt, if_pos hlt]
  · rw [if_neg hlt, if_neg hlt, natChars,
      natCharsGo_congr (n / 10) n (n / 10 + 1) (by omega) (by omega)]

theorem digitChar_isDigit {d : ℕ} (h : d < 10) : (digitChar d).isDigit = true := by
  interval_cases d <;> decide

theorem charVal_digitChar {d : ℕ} (h : d < 10) : charVal (digitChar d) = d := by
  interval_cases d <;> decide

theorem natChars_ne_nil (n : ℕ) : natChars n ≠ [] := by
  rw [natChars_eq]
  split <;> simp

theorem natChars_all_digit (n : ℕ) : ∀ c ∈ natChars n, c.isDigit = true := by
  induction n using Nat.strong_induction_on with
  | _ n ih =>
    rw [natChars_eq]
    split
    · next hlt =>
      intro c hc
      rw [List.mem_singleton] at hc
      exact hc ▸ digitChar_isDigit hlt
    · next hge =>
      intro c hc
      rcases List.mem_append.mp hc with h | h
      · exact ih (n / 10) (Nat.div_lt_self (by omega) (by omega)) c h
      · rw [List.mem_singleton] at h
        exact h ▸ digitChar_isDigit (Nat.mod_lt _ (by omega))

theorem foldl_digits_acc (n a : ℕ) :
    (natChars n).foldl (fun a c => a * 10 + charVal c) a =
      a * 10 ^ (natChars n).length + n := by
  induction n using Nat.strong_induction_on generalizing a with
  | _ n ih =>
    rw [natChars_eq]
    split
    · next hlt =>
      simp [charVal_digitChar hlt]
    · next hge =>
      rw [List.foldl_append, ih (n / 10) (Nat.div_lt_self (by omega) (by omega)) a]
      simp only [List.foldl_cons, List.foldl_nil, List.length_append,
        List.length_singleton, charVal_digitChar (Nat.mod_lt n (by omega : 0 < 10))]
      rw [pow_succ]
      ring_nf
      omega

theorem digitsVal_natChars (n : ℕ) : digitsVal (natChars n) = n := by
  rw [digitsVal, foldl_digits_acc]
  omega

theorem takeWhile_append_all {p : Char → Bool} {l₁ : List Char} (l₂ : List Char)
    (h : ∀ c ∈ l₁, p c = true) :
    (l₁ ++ l₂).takeWhile p = l₁ ++ l₂.takeWhile p := by
  induction l₁ with
  | nil => rfl
  | cons a t ih =>
    simp only [List.cons_append, List.takeWhile_cons, h a (by simp), if_true,
      List.cons.injEq, true_and]
    exact ih (fun c hc => h c (by simp [hc]))

theorem dropWhile_append_all {p : Char → Bool} {l₁ : List Char} (l₂ : List Char)
    (h : ∀ c ∈ l₁, p c = true) :
    (l₁ ++ l₂).dropWhile p = l₂.dropWhile p := by
  induction l₁ with
  | nil => rfl
  | cons a t ih =>
    simp only [List.cons_append, List.dropWhile_cons, h a (by simp), if_true]
    exact ih (fun c hc => h c (by simp [hc]))

theorem jsParseFloat_natChars (i : ℕ) : jsParseFloat ⟨natChars i⟩ = (i : ℚ) := by
  have hall := natChars_all_digit i
  rw [jsParseFloat]
  simp only
  rw [show natChars i = natChars i ++ [] from (List.append_nil _).symm,
    takeWhile_append_all [] hall, dropWhile_append_all [] hall]
  simp [digitsVal_natChars]

theorem redisNatOf_natToString (n : ℕ) : redisNatOf (natToString n) = n := by
  rw [redisNatOf, natToString]
  simp only
  rw [show natChars n = natChars n ++ [] from (List.append_nil _).symm,
    takeWhile_append_all [] (natChars_all_digit n)]
  simp [digitsVal_natChars]

theorem takeWhile_all {p : Char → Bool} {l : List Char} (h : ∀ c ∈ l, p c = true) :
    l.takeWhile p = l := by
  have := takeWhile_append_all (p := p) [] h
  simpa using this

theorem jsParseFloat_frac (i : ℕ) (ds : List Char) (hds : ∀ c ∈ ds, c.isDigit = true) :
    jsParseFloat ⟨natChars i ++ (('.' : Char) :: ds)⟩ =
      (i : ℚ) + (digitsVal ds : ℚ) / 10 ^ ds.length := by
  rw [jsParseFloat]
  simp only
  rw [takeWhile_append_all _ (natChars_all_digit i),
    dropWhile_append_all _ (natChars_all_digit i)]
  simp only [List.takeWhile_cons, List.dropWhile_cons,
    show (('.' : Char).isDigit) = false from by decide, Bool.false_eq_true, if_false,
    List.append_nil]
  simp only [if_true, takeWhile_all hds, digitsVal_natChars]

theorem singleton_all_digit {t : ℕ} (ht : t < 10) :
    ∀ c ∈ [digitChar t], c.isDigit = true := by
  intro c hc
  rw [List.mem_singleton] at hc
  exact hc ▸ digitChar_isDigit ht

theorem pair_all_digit {t u : ℕ} (ht : t < 10) (hu : u < 10) :
    ∀ c ∈ [digitChar t, digitChar u], c.isDigit = true := by
  intro c hc
  simp only [List.mem_cons, List.not_mem_nil, or_false] at hc
  rcases hc with hc | hc
  · exact hc ▸ digitChar_isDigit ht
  · exact hc ▸ digitChar_isDigit hu

theorem digitsVal_pair (t u : ℕ) (ht : t < 10) (hu : u < 10) :
    digitsVal [digitChar t, digitChar u] = 10 * t + u := by
  simp [digitsVal, charVal_digitChar ht, charVal_digitChar hu]
  ring

theorem digitsVal_single (t : ℕ) (ht : t < 10) : digitsVal [digitChar t] = t := by
  simp [digitsVal, charVal_digitChar ht]

theorem natCast_div_hundred (m : ℕ) (h : m % 100 = 0) :
    ((m / 100 : ℕ) : ℚ) = (m : ℚ) / 100 := by
  field_simp
  exact_mod_cast (by omega : m / 100 * 100 = m)

theorem jsParseFloat_hundredths (m : ℕ) :
    jsParseFloat (hundredthsToString m) = (m : ℚ) / 100 := by
  rw [hundredthsToString]
  by_cases h100 : m % 100 = 0
  · rw [if_pos h100, jsParseFloat_natChars, natCast_div_hundred m h100]
  · rw [if_neg h100]
    by_cases h10 : m % 10 = 0
    · rw [if_pos h10, jsParseFloat_frac _ _ (singleton_all_digit (by omega))]
      rw [digitsVal_single _ (by omega)]
      have keyQ : 100 * ((m / 100 : ℕ) : ℚ) + 10 * ((m % 100 / 10 : ℕ) : ℚ) = (m : ℚ) := by
        exact_mod_cast (by omega : 100 * (m / 100) + 10 * (m % 100 / 10) = m)
      simp only [List.length_singleton, pow_one]
      field_simp
      linarith
    · rw [if_neg h10, jsParseFloat_frac _ _ (pair_all_digit (by omega) (by omega))]
      rw [digitsVal_pair _ _ (by omega) (by omega)]
      have keyQ : 100 * ((m / 100 : ℕ) : ℚ) + (10 * ((m % 100 / 10 : ℕ) : ℚ) + ((m % 10 : ℕ) : ℚ)) = (m : ℚ) := by
        exact_mod_cast (by omega : 100 * (m / 100) + (10 * (m % 100 / 10) + m % 10) = m)
      simp only [List.length_cons, List.length_singleton, List.length_nil]
      push_cast
      field_simp
      linarith

theorem mk_ne_empty_of_ne_nil {l : List Char} (h : l ≠ []) : (⟨l⟩ : String) ≠ "" := by
  intro hs
  exact h (congrArg String.data hs)

theorem hundredthsToString_ne_empty (m : ℕ) : hundredthsToString m ≠ "" := by
  rw [hundredthsToString]
  split
  · exact mk_ne_empty_of_ne_nil (natChars_ne_nil _)
  · split <;> exact mk_ne_empty_of_ne_nil (by simp [natChars_ne_nil])

theorem numToString_hundredths (m : ℕ) :
    numToString ((m : ℚ) / 100) = hundredthsToString m := by
  rw [numToString]
  have h : ((m : ℚ) / 100) * 100 = (m : ℚ) := by field_simp
  rw [h, Rat.num_natCast, Int.toNat_natCast]

theorem jsParseFloat_numToString (m : ℕ) :
    jsParseFloat (numToString ((m : ℚ) / 100)) = (m : ℚ) / 100 := by
  rw [numToString_hundredths, jsParseFloat_hundredths]

theorem round_nonneg {x : ℚ} (h : 0 ≤ x) : 0 ≤ round x := by
  rw [round_eq]
  exact Int.le_floor.mpr (by push_cast; linarith)

theorem roundTo2_eq_natCast {x : ℚ} (h : 0 ≤ x) :
    roundTo2 x = (((round (x * 100)).toNat : ℕ) : ℚ) / 100 := by
  have h' : 0 ≤ round (x * 100) := round_nonneg (by positivity)
  rw [roundTo2]
  congr 1
  exact_mod_cast (Int.toNat_of_nonneg h').symm

theorem jsParseFloat_toFixed2 {q : ℚ} (h : 0 ≤ q) :
    jsParseFloat (toFixed2 q) = roundTo2 q := by
  simp only [toFixed2]
  rw [jsParseFloat_frac _ _ (pair_all_digit (by omega) (by omega))]
  rw [digitsVal_pair _ _ (by omega) (by omega)]
  rw [roundTo2_eq_natCast h]
  set m : ℕ := (round (q * 100)).toNat with hm
  have keyQ : 100 * ((m / 100 : ℕ) : ℚ) + (10 * ((m % 100 / 10 : ℕ) : ℚ) + ((m % 10 : ℕ) : ℚ)) = (m : ℚ) := by
    exact_mod_cast (by omega : 100 * (m / 100) + (10 * (m % 100 / 10) + m % 10) = m)
  simp only [List.length_cons, List.length_singleton, List.length_nil]
  push_cast
  field_simp
  linarith

theorem round_mem_of_mem {x : ℚ} {a b : ℤ} (h1 : (a : ℚ) ≤ x) (h2 : x < (b : ℚ)) :
    a ≤ round x ∧ round x ≤ b := by
  rw [round_eq]
  refine ⟨Int.le_floor.mpr (by linarith), ?_⟩
  have hb : ⌊x + 1 / 2⌋ < b + 1 := Int.floor_lt.mpr (by push_cast; linarith)
  omega

theorem roundTo2_mem {x : ℚ} {a b : ℕ} (h1 : (a : ℚ) ≤ x) (h2 : x < (b : ℚ)) :
    (a : ℚ) ≤ roundTo2 x ∧ roundTo2 x ≤ (b : ℚ) := by
  have h := round_mem_of_mem (a := (a * 100 : ℤ)) (b := (b * 100 : ℤ)) (x := x * 100)
    (by push_cast; linarith) (by push_cast; linarith)
  have hlo : ((a * 100 : ℤ) : ℚ) ≤ (round (x * 100) : ℚ) := by exact_mod_cast h.1
  have hhi : (round (x * 100) : ℚ) ≤ ((b * 100 : ℤ) : ℚ) := by exact_mod_cast h.2
  rw [roundTo2]
  push_cast at hlo hhi
  constructor <;> linarith

theorem roundTo2_hundredths (n : ℤ) : roundTo2 ((n : ℚ) / 100) = (n : ℚ) / 100 := by
  rw [roundTo2]
  have h : ((n : ℚ) / 100) * 100 = (n : ℚ) := by field_simp
  rw [h, round_intCast]


/-! ## The Redis model

The store is a string keyspace with optional absolute expiry times, a list
keyspace, and the current time in seconds.  Each issued command is
appended to an observable trace, and a fault schedule lets the
environment make the n-th command of a run throw (a network/store error
before the command reaches the server), which models the exceptions the
consumer's `try/catch` handles.  Individual commands are atomic, matching
Redis; nothing groups the program's multi-command sequences. -/

/-- One Redis command, as observed on the wire. -/
inductive RedisOpEvt where
  | get (key : String)
  | setex (key : String) (ttl : ℕ) (value : String)
  | lpush (key : String) (value : String)
  | ltrim (key : String) (start stop : ℕ)
  | incr (key : String)
  deriving DecidableEq

/-- The state of the Redis server plus the environment's fault schedule. -/
structure RedisState where
  /-- Current time, seconds. -/
  now : ℕ
  /-- String keys: key ↦ (value, optional absolute expiry time). -/
  strings : List (String × String × Option ℕ)
  /-- List keys: key ↦ elements, head = most recently pushed. -/
  lists : List (String × List String)
  /-- Commands issued so far. -/
  trace : List RedisOpEvt
  /-- Fault schedule: `faults.getD i false` says whether the i-th command
  of the run throws.  `[]` is a fault-free environment. -/
  faults : List Bool
  /-- Index of the next command, consumed by the fault schedule. -/
  opIdx : ℕ
  deriving DecidableEq

/-- Result of running an effectful piece of the consumer: a value and the
state, or a thrown store error carrying the state at the throw. -/
inductive RResult (α : Type) where
  | ok (a : α) (st : RedisState)
  | error (st : RedisState)
  deriving DecidableEq

/-- State-and-exception monad over the Redis model, mirroring the
`async`/`await`/`try`/`catch` structure of the TypeScript. -/
def RedisM (α : Type) : Type := RedisState → RResult α

instance : Monad RedisM where
  pure a := fun st => .ok a st
  bind x f := fun st =>
    match x st with
    | .ok a st' => f a st'
    | .error st' => .error st'

/-- Wrap one Redis command: consult the fault schedule, record the event,
apply the command's action to the state. A faulted command does not reach
the server. -/
def primOp {α : Type} (evt : RedisOpEvt) (act : RedisState → α × RedisState) : RedisM α :=
  fun st =>
    if st.faults.getD st.opIdx false then
      .error { st with opIdx := st.opIdx + 1 }
    else
      let r := act st
      .ok r.1 { r.2 with trace := r.2.trace ++ [evt], opIdx := st.opIdx + 1 }

/-- Raw lookup in the string keyspace (no expiry check). -/
def strLookup (strings : List (String × String × Option ℕ)) (k : String) :
    Option (String × Option ℕ) :=
  match strings.find? (fun p => p.1 == k) with
  | some p => some p.2
  | none => none

/-- Is an entry with this expiry live at time `now`? Redis drops a key
once the expiry time is reached. -/
def liveAt (now : ℕ) : Option ℕ → Bool
  | none => true
  | some e => now < e

/-- The value `GET k` observes: the stored string if present and live. -/
def getRaw (st : RedisState) (k : String) : Option String :=
  match strLookup st.strings k with
  | some (v, e) => if liveAt st.now e then some v else none
  | none => none

/-- Replace the entry for `k` in the string keyspace. -/
def strSet (strings : List (String × String × Option ℕ)) (k v : String) (e : Option ℕ) :
    List (String × String × Option ℕ) :=
  (k, v, e) :: strings.filter (fun p => p.1 != k)

/-- The elements of list key `k` (empty if absent). -/
def listGet (lists : List (String × List String)) (k : String) : List String :=
  match lists.find? (fun p => p.1 == k) with
  | some p => p.2
  | none => []

/-- Replace list key `k`. -/
def listSet (lists : List (String × List String)) (k : String) (v : List String) :
    List (String × List String) :=
  (k, v) :: lists.filter (fun p => p.1 != k)

/-- `redis.get(k)`. -/
def redisGet (k : String) : RedisM (Option String) :=
  primOp (.get k) (fun st => (getRaw st k, st))

/-- `redis.setex(k, ttl, v)`: set with expiry `now + ttl`. -/
def redisSetex (k : String) (ttl : ℕ) (v : String) : RedisM Unit :=
  primOp (.setex k ttl v)
    (fun st => ((), { st with strings := strSet st.strings k v (some (st.now + ttl)) }))

/-- `redis.lpush(k, v)`: prepend, returning the new length. -/
def redisLpush (k : String) (v : String) : RedisM ℕ :=
  primOp (.lpush k v)
    (fun st =>
      let l := v :: listGet st.lists k
      (l.length, { st with lists := listSet st.lists k l }))

/-- `redis.ltrim(k, start, stop)`: keep indices `start..stop` (the
program only ever passes the in-range pair `0, 99`; Redis's negative
indices are not modelled). -/
def redisLtrim (k : String) (start stop : ℕ) : RedisM Unit :=
  primOp (.ltrim k start stop)
    (fun st =>
      ((), { st with lists := listSet st.lists k (((listGet st.lists k).drop start).take (stop + 1 - start)) }))

/-- `redis.incr(k)`: parse the stored value as an integer (0 when absent;
this program's counters only ever hold the numerals `INCR` itself wrote),
add one, store the numeral back preserving a live expiry, and return the
new value. -/
def redisIncr (k : String) : RedisM ℕ :=
  primOp (.incr k)
    (fun st =>
      let cur : ℕ :=
        match getRaw st k with
        | some v => redisNatOf v
        | none => 0
      let e : Option ℕ :=
        match strLookup st.strings k with
        | some (_, e) => if liveAt st.now e then e else none
        | none => none
      (cur + 1, { st with strings := strSet st.strings k (natToString (cur + 1)) e }))

/-- A server state with nothing stored, at time zero, in a fault-free
environment. -/
def emptyState : RedisState :=
  { now := 0, strings := [], lists := [], trace := [], faults := [], opIdx := 0 }

/-- The state a run ended in, whether it returned or threw. -/
def resState {α : Type} : RResult α → RedisState
  | .ok _ st => st
  | .error st => st

/-- Did the run return without throwing? -/
def isOk {α : Type} : RResult α → Bool
  | .ok _ _ => true
  | .error _ => false

/-! ## The domain types (`TradeSignal`, `TradeRecord`) -/

/-- `action` field of a signal. -/
inductive TradeAction where
  | BUY
  | SELL
  deriving DecidableEq

/-- JSON rendering of an action. -/
def TradeAction.toJsonString : TradeAction → String
  | .BUY => "BUY"
  | .SELL => "SELL"

/-- The `TradeSignal` event (shared shape of `service-a/src/signals.ts`
and both copies in service B). -/
structure TradeSignal where
  assetId : String
  action : TradeAction
  volume : ℚ
  timestamp : String
  deriving DecidableEq

/-- `TradeRecord = TradeSignal & \x7b price, totalValue \x7d`. -/
structure TradeRecord extends TradeSignal where
  price : ℚ
  totalValue : String
  deriving DecidableEq

/-- The record `storeTradeHistory` builds from a signal and a price (the
object spread `\x7b ...signal, price, totalValue \x7d`). -/
def tradeRecordOf (signal : TradeSignal) (price : ℚ) : TradeRecord :=
  { toTradeSignal := signal
    price := price
    totalValue := toFixed2 (signal.volume * price) }

/-- `JSON.stringify` of a trade record, with the fields in the object's
insertion order.  The program's strings contain no characters needing
escapes. -/
def stringifyRecord (r : TradeRecord) : String :=
  "\x7b\"assetId\":\"" ++ r.assetId ++ "\",\"action\":\"" ++ r.action.toJsonString ++
    "\",\"volume\":" ++ numToString r.volume ++ ",\"timestamp\":\"" ++ r.timestamp ++
    "\",\"price\":" ++ numToString r.price ++ ",\"totalValue\":\"" ++ r.totalValue ++ "\"\x7d"

/-! ## `service-b/src/trading.ts` (the exported module) -/

namespace Trading

/-- `getAssetPrice(redis, assetId)`: cache-aside price lookup.  `rand`
stands for the `Math.random()` draw of the call (a value in `[0, 1)`).
`if (cachedPrice)` is JS truthiness: `null` (absent/expired key) and the
empty string both take the miss path. -/
def getAssetPrice (assetId : String) (rand : ℚ) : RedisM ℚ := do
  let cachedPrice ← redisGet ("price:" ++ assetId)
  match cachedPrice with
  | some v =>
    if v ≠ "" then
      pure (jsParseFloat v)
    else do
      let newPrice := roundTo2 (rand * 100 + 50)
      let _ ← redisSetex ("price:" ++ assetId) 30 (numToString newPrice)
      pure newPrice
  | none => do
    let newPrice := roundTo2 (rand * 100 + 50)
    let _ ← redisSetex ("price:" ++ assetId) 30 (numToString newPrice)
    pure newPrice

/-- `storeTradeHistory(redis, signal, price)`: build the record, prepend
it to `trade_history`, trim to the first 100 entries, bump the per-asset
counter. -/
def storeTradeHistory (signal : TradeSignal) (price : ℚ) : RedisM Unit := do
  let tradeRecord : TradeRecord :=
    { toTradeSignal := signal
      price := price
      totalValue := toFixed2 (signal.volume * price) }
  let _ ← redisLpush ("trade_history") (stringifyRecord tradeRecord)
  let _ ← redisLtrim ("trade_history") 0 99
  let _ ← redisIncr ("trade_count:" ++ signal.assetId)
  pure ()

/-- `calculateTradeValue(volume, price)`. -/
def calculateTradeValue (volume price : ℚ) : String := toFixed2 (volume * price)

end Trading

/-! ## `service-b/src/index.ts` (the consumer entrypoint) -/

namespace ServiceB

/-- The inlined `getAssetPrice(assetId)` of the consumer entrypoint
(closes over the module-level `redis` client). -/
def getAssetPrice (assetId : String) (rand : ℚ) : RedisM ℚ := do
  let cachedPrice ← redisGet ("price:" ++ assetId)
  match cachedPrice with
  | some v =>
    if v ≠ "" then
      pure (jsParseFloat v)
    else do
      let newPrice := roundTo2 (rand * 100 + 50)
      let _ ← redisSetex ("price:" ++ assetId) 30 (numToString newPrice)
      pure newPrice
  | none => do
    let newPrice := roundTo2 (rand * 100 + 50)
    let _ ← redisSetex ("price:" ++ assetId) 30 (numToString newPrice)
    pure newPrice

/-- The inlined `storeTradeHistory(signal, price)` of the consumer
entrypoint. -/
def storeTradeHistory (signal : TradeSignal) (price : ℚ) : RedisM Unit := do
  let tradeRecord : TradeRecord :=
    { toTradeSignal := signal
      price := price
      totalValue := toFixed2 (signal.volume * price) }
  let _ ← redisLpush ("trade_history") (stringifyRecord tradeRecord)
  let _ ← redisLtrim ("trade_history") 0 99
  let _ ← redisIncr ("trade_count:" ++ signal.assetId)
  pure ()

/-- `processTrade(signal)`: price the asset, recompute the total for the
log line, store the trade.  The 50 ms simulated-work delay is below the
one-second resolution of the time model. -/
def processTrade (signal : TradeSignal) (rand : ℚ) : RedisM Unit := do
  let price ← getAssetPrice signal.assetId rand
  let _totalValue := toFixed2 (signal.volume * price)
  storeTradeHistory signal price

/-- The consumer's acknowledgment decision for one delivered message. -/
inductive Ack where
  | ack
  | nack (all requeue : Bool)
  deriving DecidableEq

/-- The message callback `startConsumer` registers, for one non-null
delivery: `try \x7b parse; processTrade; ack \x7d catch \x7b nack(msg,
false, true) \x7d`.  `parseMsg` stands for `JSON.parse` followed by the
unchecked `as TradeSignal` cast: `none` means `JSON.parse` threw on the
payload; no Redis command has run at that point. -/
def handleMessage (parseMsg : String → Option TradeSignal) (content : String) (rand : ℚ) :
    RedisM Ack := fun st =>
  match parseMsg content with
  | none => .ok (.nack false true) st
  | some signal =>
    match processTrade signal rand st with
    | .ok _ st' => .ok .ack st'
    | .error st' => .ok (.nack false true) st'

end ServiceB

/-! ## `service-a/src/signals.ts` -/

namespace ServiceA

/-- `generateMockSignal()`.  `r₁`, `r₂` stand for the two `Math.random()`
draws (values in `[0, 1)`) and `nowIso` for `new Date().toISOString()`:
`actions[Math.floor(r₁ * 2)]`, volume `(r₂ * 100 + 10).toFixed(2)`
re-parsed. -/
def generateMockSignal (r₁ r₂ : ℚ) (nowIso : String) : TradeSignal :=
  let actions : List TradeAction := [.BUY, .SELL]
  let randomAction := actions.getD ⌊r₁ * 2⌋.toNat .BUY
  let randomVolume := roundTo2 (r₂ * 100 + 10)
  { assetId := "BATTERY_GRID_01"
    action := randomAction
    volume := randomVolume
    timestamp := nowIso }

end ServiceA

/-! ## Derived observations used by the claims -/

/-- The trade history as stored: the `trade_history` list. -/
def histOf (st : RedisState) : List String := listGet st.lists ("trade_history")

/-- The integer value of a counter key, as `GET` would observe it
(0 when absent, matching an absent counter). -/
def counterAt (st : RedisState) (k : String) : ℕ :=
  match getRaw st k with
  | some v => redisNatOf v
  | none => 0

/-- Run `storeTradeHistory` over a batch of (signal, price) pairs in
order. -/
def recordMany : List (TradeSignal × ℚ) → RedisM Unit
  | [] => pure ()
  | x :: rest => do
    Trading.storeTradeHistory x.1 x.2
    recordMany rest

/-- Advance the clock by `δ` seconds. -/
def advanceTime (st : RedisState) (δ : ℕ) : RedisState := { st with now := st.now + δ }

/-! ## Running the model: basic lemmas -/

theorem bind_apply {α β : Type} (x : RedisM α) (f : α → RedisM β) (st : RedisState) :
    (x >>= f) st =
      match x st with
      | .ok a st' => f a st'
      | .error st' => .error st' := rfl

theorem pure_apply {α : Type} (a : α) (st : RedisState) : (pure a : RedisM α) st = .ok a st := rfl

theorem find?_key_filter {α : Type} (l : List (String × α)) (k k' : String) (h : k' ≠ k) :
    (l.filter (fun p => p.1 != k)).find? (fun p => p.1 == k') =
      l.find? (fun p => p.1 == k') := by
  induction l with
  | nil => rfl
  | cons a t ih =>
    by_cases hk : a.1 = k
    · have h1 : (a.1 != k) = false := by simp [hk]
      have h2 : (a.1 == k') = false := by
        simp only [beq_eq_false_iff_ne, ne_eq, hk]
        exact fun hc => h hc.symm
      simp only [List.filter_cons, h1, Bool.false_eq_true, if_false, List.find?_cons, h2]
      exact ih
    · have h1 : (a.1 != k) = true := by simp [hk]
      by_cases hk' : a.1 = k'
      · have h2 : (a.1 == k') = true := by simp [hk']
        simp only [List.filter_cons, h1, if_true, List.find?_cons, h2]
      · have h2 : (a.1 == k') = false := by simp [hk']
        simp only [List.filter_cons, h1, if_true, List.find?_cons, h2]
        exact ih

theorem strLookup_strSet (strings : List (String × String × Option ℕ)) (k v : String)
    (e : Option ℕ) (k' : String) :
    strLookup (strSet strings k v e) k' =
      if k' = k then some (v, e) else strLookup strings k' := by
  by_cases hk : k' = k
  · have h2 : (k == k') = true := by simp [hk]
    simp only [strLookup, strSet, List.find?_cons, h2, if_pos hk]
  · have h2 : (k == k') = false := by
      simp only [beq_eq_false_iff_ne, ne_eq]
      exact fun hc => hk hc.symm
    simp only [strLookup, strSet, List.find?_cons, h2, if_neg hk,
      find?_key_filter _ k k' hk]

theorem listGet_listSet (L : List (String × List String)) (k : String) (v : List String)
    (k' : String) :
    listGet (listSet L k v) k' = if k' = k then v else listGet L k' := by
  by_cases hk : k' = k
  · have h2 : (k == k') = true := by simp [hk]
    simp only [listGet, listSet, List.find?_cons, h2, if_pos hk]
  · have h2 : (k == k') = false := by
      simp only [beq_eq_false_iff_ne, ne_eq]
      exact fun hc => hk hc.symm
    simp only [listGet, listSet, List.find?_cons, h2, if_neg hk,
      find?_key_filter _ k k' hk]

theorem listSet_listSet (L : List (String × List String)) (k : String) (a b : List String) :
    listSet (listSet L k a) k b = listSet L k b := by
  simp [listSet, List.filter_filter]

/-- Expiry kept by `INCR`: the existing one while live, else none. -/
def keptExpiry (st : RedisState) (k : String) : Option ℕ :=
  match strLookup st.strings k with
  | some (_, e) => if liveAt st.now e then e else none
  | none => none

theorem redisGet_run (k : String) (st : RedisState) (hf : st.faults = []) :
    redisGet k st =
      .ok (getRaw st k) { st with
          trace := st.trace ++ [.get k],
          opIdx := st.opIdx + 1 } := by
  simp [redisGet, primOp, hf, List.getD]

theorem redisSetex_run (k : String) (ttl : ℕ) (v : String) (st : RedisState)
    (hf : st.faults = []) :
    redisSetex k ttl v st =
      .ok () { st with
          strings := strSet st.strings k v (some (st.now + ttl)),
          trace := st.trace ++ [.setex k ttl v],
          opIdx := st.opIdx + 1 } := by
  simp [redisSetex, primOp, hf, List.getD]

theorem redisLpush_run (k v : String) (st : RedisState) (hf : st.faults = []) :
    redisLpush k v st =
      .ok (v :: listGet st.lists k).length
        { st with
            lists := listSet st.lists k (v :: listGet st.lists k),
            trace := st.trace ++ [.lpush k v],
            opIdx := st.opIdx + 1 } := by
  simp [redisLpush, primOp, hf, List.getD]

theorem redisLtrim_run (k : String) (start stop : ℕ) (st : RedisState) (hf : st.faults = []) :
    redisLtrim k start stop st =
      .ok ()
        { st with
            lists := listSet st.lists k (((listGet st.lists k).drop start).take (stop + 1 - start)),
            trace := st.trace ++ [.ltrim k start stop],
            opIdx := st.opIdx + 1 } := by
  simp [redisLtrim, primOp, hf, List.getD]

theorem redisIncr_run (k : String) (st : RedisState) (hf : st.faults = []) :
    redisIncr k st =
      .ok (counterAt st k + 1)
        { st with
            strings := strSet st.strings k (natToString (counterAt st k + 1)) (keptExpiry st k),
            trace := st.trace ++ [.incr k],
            opIdx := st.opIdx + 1 } := by
  simp [redisIncr, primOp, hf, List.getD, counterAt, keptExpiry]

/-- The state a fault-free `storeTradeHistory` call leaves behind: the
record prepended and the history trimmed to 100, the asset's counter
bumped, three commands traced. -/
def recordedState (sig : TradeSignal) (price : ℚ) (st : RedisState) : RedisState :=
  { st with
    lists := listSet st.lists ("trade_history")
      ((stringifyRecord (tradeRecordOf sig price) :: histOf st).take 100),
    strings := strSet st.strings ("trade_count:" ++ sig.assetId)
      (natToString (counterAt st ("trade_count:" ++ sig.assetId) + 1))
      (keptExpiry st ("trade_count:" ++ sig.assetId)),
    trace := st.trace ++
      [.lpush ("trade_history") (stringifyRecord (tradeRecordOf sig price)),
        .ltrim ("trade_history") 0 99, .incr ("trade_count:" ++ sig.assetId)],
    opIdx := st.opIdx + 3 }

theorem storeTradeHistory_run (sig : TradeSignal) (price : ℚ) (st : RedisState)
    (hf : st.faults = []) :
    Trading.storeTradeHistory sig price st = .ok () (recordedState sig price st) := by
  rw [Trading.storeTradeHistory]
  simp only [bind_apply, pure_apply, redisLpush_run _ _ _ hf]
  rw [redisLtrim_run _ _ _ _ (by simpa using hf)]
  simp only [listGet_listSet, if_pos rfl, listSet_listSet, List.drop_zero]
  rw [redisIncr_run _ _ (by simpa using hf)]
  simp only [recordedState, tradeRecordOf, histOf, RResult.ok.injEq, true_and,
    RedisState.mk.injEq, List.append_assoc, List.cons_append, List.nil_append]
  simp only [if_true]
  simp [counterAt, getRaw, keptExpiry, strLookup]

/-- The state a fault-free cache-miss `getAssetPrice` call leaves behind:
the generated price cached under `price:{assetId}` with expiry
`now + 30`, two commands traced. -/
def missedState (assetId : String) (rand : ℚ) (st : RedisState) : RedisState :=
  { st with
    strings := strSet st.strings ("price:" ++ assetId)
      (numToString (roundTo2 (rand * 100 + 50))) (some (st.now + 30)),
    trace := st.trace ++
      [.get ("price:" ++ assetId),
        .setex ("price:" ++ assetId) 30 (numToString (roundTo2 (rand * 100 + 50)))],
    opIdx := st.opIdx + 2 }

theorem getAssetPrice_run_hit (assetId : String) (rand : ℚ) (st : RedisState) (v : String)
    (hf : st.faults = []) (hv : getRaw st ("price:" ++ assetId) = some v) (hne : v ≠ "") :
    Trading.getAssetPrice assetId rand st =
      .ok (jsParseFloat v)
        { st with
            trace := st.trace ++ [.get ("price:" ++ assetId)],
            opIdx := st.opIdx + 1 } := by
  rw [Trading.getAssetPrice]
  simp only [bind_apply, redisGet_run _ _ hf, hv]
  simp [hne, pure_apply]

theorem getAssetPrice_run_missNone (assetId : String) (rand : ℚ) (st : RedisState)
    (hf : st.faults = []) (hv : getRaw st ("price:" ++ assetId) = none) :
    Trading.getAssetPrice assetId rand st =
      .ok (roundTo2 (rand * 100 + 50)) (missedState assetId rand st) := by
  rw [Trading.getAssetPrice]
  simp only [bind_apply, redisGet_run _ _ hf, hv]
  rw [redisSetex_run _ _ _ _ (by simpa using hf)]
  simp only [bind_apply, pure_apply, missedState, RResult.ok.injEq, true_and,
    RedisState.mk.injEq, List.append_assoc, List.cons_append, List.nil_append]

theorem getAssetPrice_run_missEmpty (assetId : String) (rand : ℚ) (st : RedisState)
    (hf : st.faults = []) (hv : getRaw st ("price:" ++ assetId) = some "") :
    Trading.getAssetPrice assetId rand st =
      .ok (roundTo2 (rand * 100 + 50)) (missedState assetId rand st) := by
  rw [Trading.getAssetPrice]
  simp only [bind_apply, redisGet_run _ _ hf, hv]
  simp only [ne_eq, not_true_eq_false, if_false, Bool.false_eq_true, bind_apply]
  rw [redisSetex_run _ _ _ _ (by simpa using hf)]
  simp only [bind_apply, pure_apply, missedState, RResult.ok.injEq, true_and,
    RedisState.mk.injEq, List.append_assoc, List.cons_append, List.nil_append]

/-! ## Observation lemmas about the run states -/

theorem resState_ok {α : Type} (a : α) (st : RedisState) : resState (.ok a st) = st := rfl

theorem resState_error {α : Type} (st : RedisState) : resState (.error st : RResult α) = st := rfl

theorem liveAt_keptExpiry (st : RedisState) (k : String) :
    liveAt st.now (keptExpiry st k) = true := by
  rw [keptExpiry]
  cases h : strLookup st.strings k with
  | none => rfl
  | some p =>
    by_cases hl : liveAt st.now p.2 = true
    · simp [hl]
    · simp [hl]
      rfl

theorem histOf_recordedState (sig : TradeSignal) (price : ℚ) (st : RedisState) :
    histOf (recordedState sig price st) =
      (stringifyRecord (tradeRecordOf sig price) :: histOf st).take 100 := by
  simp [histOf, recordedState, listGet_listSet]

theorem counterAt_fields {st st' : RedisState} (hs : st'.strings = st.strings)
    (hn : st'.now = st.now) (k : String) : counterAt st' k = counterAt st k := by
  rw [counterAt, counterAt, getRaw, getRaw, hs, hn]

theorem counterAt_strSet_bump (st st' : RedisState) (key k : String)
    (hs : st'.strings = strSet st.strings key
      (natToString (counterAt st key + 1)) (keptExpiry st key))
    (hn : st'.now = st.now) :
    counterAt st' k = if k = key then counterAt st key + 1 else counterAt st k := by
  rw [counterAt, getRaw, hs, hn, strLookup_strSet]
  by_cases hk : k = key
  · simp [hk, liveAt_keptExpiry, redisNatOf_natToString]
  · simp only [if_neg hk]
    rw [counterAt, getRaw]

theorem counterAt_recordedState (sig : TradeSignal) (price : ℚ) (st : RedisState) (k : String) :
    counterAt (recordedState sig price st) k =
      if k = "trade_count:" ++ sig.assetId
      then counterAt st ("trade_count:" ++ sig.assetId) + 1
      else counterAt st k :=
  counterAt_strSet_bump st _ _ k rfl rfl

theorem recordedState_faults (sig : TradeSignal) (price : ℚ) (st : RedisState) :
    (recordedState sig price st).faults = st.faults := rfl

theorem take_append_take (A B : List String) (n : ℕ) :
    (A ++ B.take n).take n = (A ++ B).take n := by
  rw [List.take_append_eq_append_take, List.take_append_eq_append_take, List.take_take]
  congr 1
  rw [min_eq_left (by omega)]

theorem recordMany_run (l : List (TradeSignal × ℚ)) :
    ∀ st : RedisState, st.faults = [] →
      ∃ st', recordMany l st = .ok () st' ∧ st'.faults = [] ∧
        ((histOf st).length ≤ 100 →
          histOf st' =
            ((l.map fun x => stringifyRecord (tradeRecordOf x.1 x.2)).reverse ++ histOf st).take 100) ∧
        ∀ A : String, (∀ x ∈ l, x.1.assetId = A) →
          counterAt st' ("trade_count:" ++ A) = counterAt st ("trade_count:" ++ A) + l.length := by
  induction l with
  | nil =>
    intro st hf
    refine ⟨st, rfl, hf, ?_, ?_⟩
    · intro hlen
      rw [List.map_nil, List.reverse_nil, List.nil_append, List.take_of_length_le hlen]
    · intro A hA
      simp
  | cons x rest ih =>
    intro st hf
    obtain ⟨st', h1, h2, h3, h4⟩ := ih (recordedState x.1 x.2 st)
      (by rw [recordedState_faults]; exact hf)
    refine ⟨st', ?_, h2, ?_, ?_⟩
    · rw [recordMany]
      simp only [bind_apply, storeTradeHistory_run _ _ _ hf]
      exact h1
    · intro hlen
      have hlen1 : (histOf (recordedState x.1 x.2 st)).length ≤ 100 := by
        rw [histOf_recordedState, List.length_take]
        omega
      rw [h3 hlen1, histOf_recordedState, List.map_cons, List.reverse_cons,
        take_append_take]
      rw [List.append_assoc, List.singleton_append]
    · intro A hA
      have hx : x.1.assetId = A := hA x (by simp)
      rw [h4 A (fun y hy => hA y (by simp [hy])), counterAt_recordedState, hx, if_pos rfl,
        List.length_cons]
      omega

theorem storeTradeHistory_isOk (sig : TradeSignal) (price : ℚ) (st : RedisState)
    (hf : st.faults = []) : isOk (Trading.storeTradeHistory sig price st) = true := by
  rw [storeTradeHistory_run _ _ _ hf]
  rfl

theorem counterAt_bump_le (st : RedisState) (key k : String) (L : List (String × List String))
    (T : List RedisOpEvt) (I : ℕ) :
    counterAt st k ≤
      counterAt
        { now := st.now,
          strings := strSet st.strings key (natToString (counterAt st key + 1)) (keptExpiry st key),
          lists := L, trace := T, faults := st.faults, opIdx := I } k := by
  rw [counterAt_strSet_bump st
    { now := st.now,
      strings := strSet st.strings key (natToString (counterAt st key + 1)) (keptExpiry st key),
      lists := L, trace := T, faults := st.faults, opIdx := I } key k rfl rfl]
  by_cases hk : k = key
  · rw [if_pos hk, hk]
    omega
  · rw [if_neg hk]

/-- One `storeTradeHistory` call never decreases any counter, whatever
the environment's fault schedule does to its three commands. -/
theorem counterAt_storeTradeHistory_mono (sig : TradeSignal) (price : ℚ) (st : RedisState)
    (k : String) :
    counterAt st k ≤ counterAt (resState (Trading.storeTradeHistory sig price st)) k := by
  rw [Trading.storeTradeHistory]
  simp only [bind_apply, pure_apply, redisLpush, redisLtrim, redisIncr, primOp]
  by_cases h1 : st.faults.getD st.opIdx false
  · simp only [h1, if_true, resState]
    exact le_of_eq (counterAt_fields rfl rfl k).symm
  · simp only [h1, Bool.false_eq_true, if_false]
    by_cases h2 : st.faults.getD (st.opIdx + 1) false
    · simp only [h2, if_true, resState]
      exact le_of_eq (counterAt_fields rfl rfl k).symm
    · simp only [h2, Bool.false_eq_true, if_false]
      by_cases h3 : st.faults.getD (st.opIdx + 1 + 1) false
      · simp only [h3, if_true, resState]
        exact le_of_eq (counterAt_fields rfl rfl k).symm
      · simp only [h3, Bool.false_eq_true, if_false, resState]
        exact counterAt_bump_le st ("trade_count:" ++ sig.assetId) k _ _ _

theorem listGet_nil (k : String) : listGet [] k = [] := rfl

theorem getRaw_fields {st st' : RedisState} (hs : st'.strings = st.strings)
    (hn : st'.now = st.now) (k : String) : getRaw st' k = getRaw st k := by
  rw [getRaw, getRaw, hs, hn]

theorem getRaw_advance (st : RedisState) (δ : ℕ) (k : String) :
    getRaw (advanceTime st δ) k =
      match strLookup st.strings k with
      | some (v, e) => if liveAt (st.now + δ) e then some v else none
      | none => none := by
  rw [advanceTime, getRaw]

theorem roundTo2_idem (x : ℚ) : roundTo2 (roundTo2 x) = roundTo2 x :=
  roundTo2_hundredths (round (x * 100))

theorem tradeAction_cases (a : TradeAction) : a = .BUY ∨ a = .SELL := by
  cases a
  · exact Or.inl rfl
  · exact Or.inr rfl

theorem ok_exists {α : Type} (r : RResult α) (h : isOk r = true) : ∃ a st, r = .ok a st := by
  cases r with
  | ok a st => exact ⟨a, st, rfl⟩
  | error st => simp [isOk] at h

theorem histOf_of_ok (sig : TradeSignal) (price : ℚ) (st st' : RedisState)
    (h : Trading.storeTradeHistory sig price st = .ok () st') :
    histOf st' = (stringifyRecord (tradeRecordOf sig price) :: histOf st).take 100 := by
  rw [Trading.storeTradeHistory] at h
  simp only [bind_apply, pure_apply, redisLpush, redisLtrim, redisIncr, primOp] at h
  by_cases h1 : st.faults.getD st.opIdx false
  · simp only [h1, if_true] at h
    cases h
  · simp only [h1, Bool.false_eq_true, if_false] at h
    by_cases h2 : st.faults.getD (st.opIdx + 1) false
    · simp only [h2, if_true] at h
      cases h
    · simp only [h2, Bool.false_eq_true, if_false] at h
      by_cases h3 : st.faults.getD (st.opIdx + 1 + 1) false
      · simp only [h3, if_true] at h
        cases h
      · simp only [h3, Bool.false_eq_true, if_false, RResult.ok.injEq, true_and] at h
        rw [← h]
        simp [histOf, listGet_listSet, listSet_listSet, List.drop_zero, tradeRecordOf]

/-! ## Sample values for witnesses and counterexamples -/

/-- A concrete signal (volume `50.5`). -/
def sampleSignal : TradeSignal :=
  { assetId := "BATTERY_GRID_01"
    action := .BUY
    volume := (101 : ℚ) / 2
    timestamp := "2024-01-01T00:00:00.000Z" }

/-- An empty store whose environment faults the second command of a run
(the `LTRIM` of a `storeTradeHistory` call). -/
def faultyState : RedisState := { emptyState with faults := [false, true] }

/-- A store holding a live but empty string under `price:A`. -/
def weirdState : RedisState := { emptyState with strings := [("price:" ++ "A", "", none)] }

theorem inline_getAssetPrice_eq : ServiceB.getAssetPrice = Trading.getAssetPrice := rfl

theorem inline_storeTradeHistory_eq : ServiceB.storeTradeHistory = Trading.storeTradeHistory := rfl

/-! ## The claims -/

/-- Claim C10: the `getAssetPrice` and `storeTradeHistory` inlined in the
consumer entrypoint are observationally equivalent to the exported ones in
the trading module: on every state they return the same result, leave the
same store, and (through the trace carried by the state) issue the same
command sequence. -/
theorem inline_defs_equiv_trading (assetId : String) (rand : ℚ) (sig : TradeSignal)
    (price : ℚ) (st₁ st₂ : RedisState) :
    ServiceB.getAssetPrice assetId rand st₁ = Trading.getAssetPrice assetId rand st₁ ∧
    ServiceB.storeTradeHistory sig price st₂ = Trading.storeTradeHistory sig price st₂ ∧
    (resState (ServiceB.storeTradeHistory sig price st₂)).trace =
      (resState (Trading.storeTradeHistory sig price st₂)).trace :=
  ⟨rfl, rfl, rfl⟩

/-- Claim C1, counterexample: a payload `JSON.parse` throws on (such as
`"not valid json"`) is nacked with `requeue = true`, not with
`requeue = false` as the claim states. -/
theorem malformed_message_requeued :
    ServiceB.handleMessage (fun _ => none) ("not valid json") 0 emptyState =
      .ok (.nack false true) emptyState ∧
    ServiceB.Ack.nack false true ≠ .nack false false :=
  ⟨rfl, by decide⟩

/-- Claim C1, amended: a message whose payload fails to deserialize is
negatively acknowledged with `requeue = true` — the same path as any
other processing failure — so the malformed message is redelivered rather
than dropped, and the store is untouched. -/
theorem malformed_message_nacked (parseMsg : String → Option TradeSignal)
    (content : String) (rand : ℚ) (st : RedisState) (hp : parseMsg content = none) :
    ServiceB.handleMessage parseMsg content rand st = .ok (.nack false true) st := by
  rw [ServiceB.handleMessage, hp]

theorem malformed_message_nacked_witness :
    ServiceB.handleMessage (fun _ => none) ("not valid json") 0 emptyState =
      .ok (.nack false true) emptyState :=
  malformed_message_nacked (fun _ => none) ("not valid json") 0 emptyState rfl

/-- Claim C6: once a message parses, the consumer acks it exactly when
`processTrade` (pricing then recording) returns without an exception, and
nacks it with `requeue = true` (redelivery) when `processTrade` throws. -/
theorem handleMessage_outcome (parseMsg : String → Option TradeSignal) (content : String)
    (sig : TradeSignal) (rand : ℚ) (st st' : RedisState) (hp : parseMsg content = some sig) :
    (ServiceB.processTrade sig rand st = .ok () st' →
      ServiceB.handleMessage parseMsg content rand st = .ok .ack st') ∧
    (ServiceB.processTrade sig rand st = .error st' →
      ServiceB.handleMessage parseMsg content rand st = .ok (.nack false true) st') := by
  constructor
  · intro hok
    rw [ServiceB.handleMessage, hp]
    simp only [hok]
  · intro herr
    rw [ServiceB.handleMessage, hp]
    simp only [herr]

theorem handleMessage_outcome_witness :
    (ServiceB.processTrade sampleSignal 0 emptyState =
        .ok () (resState (ServiceB.processTrade sampleSignal 0 emptyState)) →
      ServiceB.handleMessage (fun _ => some sampleSignal) ("m") 0 emptyState =
        .ok .ack (resState (ServiceB.processTrade sampleSignal 0 emptyState))) ∧
    (ServiceB.processTrade sampleSignal 0 emptyState =
        .error (resState (ServiceB.processTrade sampleSignal 0 emptyState)) →
      ServiceB.handleMessage (fun _ => some sampleSignal) ("m") 0 emptyState =
        .ok (.nack false true) (resState (ServiceB.processTrade sampleSignal 0 emptyState))) :=
  handleMessage_outcome (fun _ => some sampleSignal) ("m") sampleSignal 0 emptyState
    (resState (ServiceB.processTrade sampleSignal 0 emptyState)) rfl

/-- Claim C9: `storeTradeHistory` is not atomic on error — with the
prepend succeeding and the trim throwing, the call fails overall while
`trade_history` has already been modified. -/
theorem record_not_atomic :
    isOk (Trading.storeTradeHistory sampleSignal 100 faultyState) = false ∧
    histOf (resState (Trading.storeTradeHistory sampleSignal 100 faultyState)) ≠
      histOf faultyState := by
  have c0 : faultyState.faults.getD faultyState.opIdx false = false := rfl
  have c1 : faultyState.faults.getD (faultyState.opIdx + 1) false = true := rfl
  constructor
  · rw [Trading.storeTradeHistory]
    simp only [bind_apply, pure_apply, redisLpush, redisLtrim, primOp, c0, c1,
      Bool.false_eq_true, if_false, if_true]
    rfl
  · rw [Trading.storeTradeHistory]
    simp only [bind_apply, pure_apply, redisLpush, redisLtrim, primOp, c0, c1,
      Bool.false_eq_true, if_false, if_true]
    simp [resState, histOf, listGet_listSet, listGet_nil, faultyState, emptyState]

/-- Claim C2: every completed `storeTradeHistory` call leaves
`trade_history` with at most 100 entries; and 110 recordings from an
empty history leave exactly 100 entries, the 100 most recent in
reverse-chronological insertion order (newest first). -/
theorem history_bounded (sig : TradeSignal) (price : ℚ) (σ : RedisState)
    (l : List (TradeSignal × ℚ)) (st : RedisState)
    (hok : isOk (Trading.storeTradeHistory sig price σ) = true)
    (hf : st.faults = []) (hh : histOf st = []) (hl : l.length = 110) :
    (histOf (resState (Trading.storeTradeHistory sig price σ))).length ≤ 100 ∧
    ∃ st', recordMany l st = .ok () st' ∧
      histOf st' = ((l.map fun x => stringifyRecord (tradeRecordOf x.1 x.2)).reverse).take 100 ∧
      (histOf st').length = 100 := by
  constructor
  · obtain ⟨a, stR, hR⟩ := ok_exists _ hok
    cases a
    rw [hR, resState_ok, histOf_of_ok _ _ _ _ hR, List.length_take]
    omega
  · obtain ⟨st', h1, h2, h3, h4⟩ := recordMany_run l st hf
    have hlen0 : (histOf st).length ≤ 100 := by rw [hh]; simp
    refine ⟨st', h1, ?_, ?_⟩
    · rw [h3 hlen0, hh, List.append_nil]
    · rw [h3 hlen0, hh, List.append_nil, List.length_take, List.length_reverse,
        List.length_map, hl]
      exact Nat.min_eq_left (by norm_num)

theorem history_bounded_witness :
    (histOf (resState (Trading.storeTradeHistory sampleSignal 100 emptyState))).length ≤ 100 ∧
    ∃ st', recordMany (List.replicate 110 (sampleSignal, (100 : ℚ))) emptyState = .ok () st' ∧
      histOf st' =
        (((List.replicate 110 (sampleSignal, (100 : ℚ))).map
          fun x => stringifyRecord (tradeRecordOf x.1 x.2)).reverse).take 100 ∧
      (histOf st').length = 100 :=
  history_bounded sampleSignal 100 emptyState (List.replicate 110 (sampleSignal, (100 : ℚ)))
    emptyState (storeTradeHistory_isOk sampleSignal 100 emptyState rfl) rfl rfl
    (by simp)

/-- Claim C3: the record `storeTradeHistory` writes at the head of the
history carries `totalValue = (volume * price).toFixed(2)`
(`calculateTradeValue`); rendering-wise, `toFixed2` is the 2-decimal
rounding of its argument (re-parsing it gives `roundTo2`), and the
spec's example `50.5 × 75.50` renders as `"3812.75"`. -/
theorem totalValue_correct (sig : TradeSignal) (price : ℚ) (σ : RedisState) (q : ℚ)
    (hok : isOk (Trading.storeTradeHistory sig price σ) = true) (hq : 0 ≤ q) :
    (histOf (resState (Trading.storeTradeHistory sig price σ))).head? =
      some (stringifyRecord (tradeRecordOf sig price)) ∧
    (tradeRecordOf sig price).totalValue = Trading.calculateTradeValue sig.volume price ∧
    jsParseFloat (toFixed2 q) = roundTo2 q ∧
    toFixed2 ((101 : ℚ) / 2 * ((151 : ℚ) / 2)) = "3812.75" := by
  refine ⟨?_, rfl, jsParseFloat_toFixed2 hq, ?_⟩
  · obtain ⟨a, stR, hR⟩ := ok_exists _ hok
    cases a
    rw [hR, resState_ok, histOf_of_ok _ _ _ _ hR,
      show (100 : ℕ) = 99 + 1 from rfl, List.take_succ_cons]
    rfl
  · have h : round ((101 : ℚ) / 2 * ((151 : ℚ) / 2) * 100) = 381275 := by
      norm_num [round_eq]
    rw [toFixed2]
    norm_num [h]
    decide

theorem totalValue_correct_witness :
    (histOf (resState (Trading.storeTradeHistory sampleSignal 100 emptyState))).head? =
      some (stringifyRecord (tradeRecordOf sampleSignal 100)) ∧
    (tradeRecordOf sampleSignal 100).totalValue =
      Trading.calculateTradeValue sampleSignal.volume 100 ∧
    jsParseFloat (toFixed2 3) = roundTo2 3 ∧
    toFixed2 ((101 : ℚ) / 2 * ((151 : ℚ) / 2)) = "3812.75" :=
  totalValue_correct sampleSignal 100 emptyState 3
    (storeTradeHistory_isOk sampleSignal 100 emptyState rfl) (by norm_num)

/-- Claim C7: starting from an absent or zero counter, N fault-free
`storeTradeHistory` calls for an asset leave `trade_count:{assetId}` at
exactly N; and no call — even one the environment faults partway —
ever decreases any counter. -/
theorem counter_exact (A : String) (l : List (TradeSignal × ℚ)) (st : RedisState)
    (sig : TradeSignal) (price : ℚ) (σ : RedisState) (k : String)
    (hf : st.faults = []) (hA : ∀ x ∈ l, x.1.assetId = A)
    (h0 : counterAt st ("trade_count:" ++ A) = 0) :
    (∃ st', recordMany l st = .ok () st' ∧ counterAt st' ("trade_count:" ++ A) = l.length) ∧
    counterAt σ k ≤ counterAt (resState (Trading.storeTradeHistory sig price σ)) k := by
  refine ⟨?_, counterAt_storeTradeHistory_mono sig price σ k⟩
  obtain ⟨st', h1, h2, h3, h4⟩ := recordMany_run l st hf
  exact ⟨st', h1, by rw [h4 A hA, h0, Nat.zero_add]⟩

theorem counter_exact_witness :
    (∃ st', recordMany [(sampleSignal, (100 : ℚ)), (sampleSignal, (50 : ℚ)), (sampleSignal, (75 : ℚ))]
        emptyState = .ok () st' ∧
      counterAt st' ("trade_count:" ++ "BATTERY_GRID_01") =
        [(sampleSignal, (100 : ℚ)), (sampleSignal, (50 : ℚ)), (sampleSignal, (75 : ℚ))].length) ∧
    counterAt weirdState ("trade_count:X") ≤
      counterAt (resState (Trading.storeTradeHistory sampleSignal 100 weirdState)) ("trade_count:X") :=
  counter_exact ("BATTERY_GRID_01")
    [(sampleSignal, (100 : ℚ)), (sampleSignal, (50 : ℚ)), (sampleSignal, (75 : ℚ))]
    emptyState sampleSignal 100 weirdState ("trade_count:X") rfl
    (by
      intro x hx
      simp only [List.mem_cons, List.not_mem_nil, or_false] at hx
      rcases hx with h | h | h <;> (rw [h]; rfl)) rfl

/-- Claim C8: every generated signal has `volume` in `[10, 110]` rounded
to 2 decimals, `action` either BUY or SELL, and a non-empty `assetId`. -/
theorem generateMockSignal_valid (r₁ r₂ : ℚ) (nowIso : String)
    (h10 : 0 ≤ r₁) (h11 : r₁ < 1) (h20 : 0 ≤ r₂) (h21 : r₂ < 1) :
    (10 : ℚ) ≤ (ServiceA.generateMockSignal r₁ r₂ nowIso).volume ∧
    (ServiceA.generateMockSignal r₁ r₂ nowIso).volume ≤ 110 ∧
    roundTo2 (ServiceA.generateMockSignal r₁ r₂ nowIso).volume =
      (ServiceA.generateMockSignal r₁ r₂ nowIso).volume ∧
    ((ServiceA.generateMockSignal r₁ r₂ nowIso).action = .BUY ∨
      (ServiceA.generateMockSignal r₁ r₂ nowIso).action = .SELL) ∧
    (ServiceA.generateMockSignal r₁ r₂ nowIso).assetId ≠ "" := by
  have hvol : (ServiceA.generateMockSignal r₁ r₂ nowIso).volume = roundTo2 (r₂ * 100 + 10) := rfl
  have hid : (ServiceA.generateMockSignal r₁ r₂ nowIso).assetId = "BATTERY_GRID_01" := rfl
  have hb := roundTo2_mem (a := 10) (b := 110) (x := r₂ * 100 + 10)
    (by push_cast; linarith) (by push_cast; linarith)
  refine ⟨?_, ?_, ?_, tradeAction_cases _, ?_⟩
  · rw [hvol]
    exact_mod_cast hb.1
  · rw [hvol]
    exact_mod_cast hb.2
  · rw [hvol, roundTo2_idem]
  · rw [hid]
    decide

theorem generateMockSignal_valid_witness :
    (10 : ℚ) ≤ (ServiceA.generateMockSignal 0 ((1 : ℚ) / 2) ("T")).volume ∧
    (ServiceA.generateMockSignal 0 ((1 : ℚ) / 2) ("T")).volume ≤ 110 ∧
    roundTo2 (ServiceA.generateMockSignal 0 ((1 : ℚ) / 2) ("T")).volume =
      (ServiceA.generateMockSignal 0 ((1 : ℚ) / 2) ("T")).volume ∧
    ((ServiceA.generateMockSignal 0 ((1 : ℚ) / 2) ("T")).action = .BUY ∨
      (ServiceA.generateMockSignal 0 ((1 : ℚ) / 2) ("T")).action = .SELL) ∧
    (ServiceA.generateMockSignal 0 ((1 : ℚ) / 2) ("T")).assetId ≠ "" :=
  generateMockSignal_valid 0 ((1 : ℚ) / 2) ("T") (by norm_num) (by norm_num)
    (by norm_num) (by norm_num)

/-- Claim C4, counterexample: `price:A` holds a live entry (the empty
string), yet `getAssetPrice` does not return that cached value and does
not leave the cache unwritten — JS truthiness sends the empty string down
the miss path, which regenerates and overwrites. -/
theorem cache_hit_claim_fails :
    getRaw weirdState ("price:" ++ "A") = some "" ∧
    Trading.getAssetPrice ("A") 0 weirdState =
      .ok (roundTo2 (0 * 100 + 50)) (missedState ("A") 0 weirdState) ∧
    roundTo2 (0 * 100 + 50) ≠ jsParseFloat ("") ∧
    (missedState ("A") 0 weirdState).strings ≠ weirdState.strings := by
  refine ⟨by decide, getAssetPrice_run_missEmpty ("A") 0 weirdState rfl (by decide), ?_, ?_⟩
  · have h1 : round ((0 * 100 + 50 : ℚ) * 100) = 5000 := by norm_num [round_eq]
    have h2 : jsParseFloat ("") = 0 := by simp [jsParseFloat, digitsVal]
    rw [roundTo2, h1, h2]
    norm_num
  · intro hcontra
    rw [show (missedState ("A") 0 weirdState).strings =
      strSet weirdState.strings ("price:" ++ "A")
        (numToString (roundTo2 (0 * 100 + 50))) (some (weirdState.now + 30)) from rfl] at hcontra
    simp [strSet, weirdState, emptyState] at hcontra

/-- Claim C4, amended: cache-aside up to JS truthiness — a live
**non-empty** entry is returned as parsed, with no store write; when the
key is absent, expired, or holds the empty string, a price
`roundTo2(rand * 100 + 50) ∈ [50, 150]` is generated, cached under
`price:{assetId}` with expiry exactly `now + 30` seconds, and returned. -/
theorem getAssetPrice_cache_aside (assetId : String) (r : ℚ) (st : RedisState) (v : String)
    (hr0 : 0 ≤ r) (hr1 : r < 1) (hf : st.faults = []) :
    (getRaw st ("price:" ++ assetId) = some v → v ≠ "" →
      Trading.getAssetPrice assetId r st =
        .ok (jsParseFloat v)
          { st with
              trace := st.trace ++ [.get ("price:" ++ assetId)],
              opIdx := st.opIdx + 1 }) ∧
    (getRaw st ("price:" ++ assetId) = none →
      Trading.getAssetPrice assetId r st =
        .ok (roundTo2 (r * 100 + 50)) (missedState assetId r st)) ∧
    (getRaw st ("price:" ++ assetId) = some "" →
      Trading.getAssetPrice assetId r st =
        .ok (roundTo2 (r * 100 + 50)) (missedState assetId r st)) ∧
    (50 : ℚ) ≤ roundTo2 (r * 100 + 50) ∧ roundTo2 (r * 100 + 50) ≤ 150 ∧
    strLookup (missedState assetId r st).strings ("price:" ++ assetId) =
      some (numToString (roundTo2 (r * 100 + 50)), some (st.now + 30)) := by
  have hb := roundTo2_mem (a := 50) (b := 150) (x := r * 100 + 50)
    (by push_cast; linarith) (by push_cast; linarith)
  refine ⟨fun hv hne => getAssetPrice_run_hit assetId r st v hf hv hne,
    fun hv => getAssetPrice_run_missNone assetId r st hf hv,
    fun hv => getAssetPrice_run_missEmpty assetId r st hf hv,
    by exact_mod_cast hb.1, by exact_mod_cast hb.2, ?_⟩
  rw [show (missedState assetId r st).strings =
    strSet st.strings ("price:" ++ assetId)
      (numToString (roundTo2 (r * 100 + 50))) (some (st.now + 30)) from rfl,
    strLookup_strSet, if_pos rfl]

theorem getAssetPrice_cache_aside_witness :
    (getRaw emptyState ("price:" ++ "A") = some "75.5" → "75.5" ≠ "" →
      Trading.getAssetPrice ("A") ((1 : ℚ) / 2) emptyState =
        .ok (jsParseFloat ("75.5"))
          { emptyState with
              trace := emptyState.trace ++ [.get ("price:" ++ "A")],
              opIdx := emptyState.opIdx + 1 }) ∧
    (getRaw emptyState ("price:" ++ "A") = none →
      Trading.getAssetPrice ("A") ((1 : ℚ) / 2) emptyState =
        .ok (roundTo2 ((1 : ℚ) / 2 * 100 + 50)) (missedState ("A") ((1 : ℚ) / 2) emptyState)) ∧
    (getRaw emptyState ("price:" ++ "A") = some "" →
      Trading.getAssetPrice ("A") ((1 : ℚ) / 2) emptyState =
        .ok (roundTo2 ((1 : ℚ) / 2 * 100 + 50)) (missedState ("A") ((1 : ℚ) / 2) emptyState)) ∧
    (50 : ℚ) ≤ roundTo2 ((1 : ℚ) / 2 * 100 + 50) ∧
    roundTo2 ((1 : ℚ) / 2 * 100 + 50) ≤ 150 ∧
    strLookup (missedState ("A") ((1 : ℚ) / 2) emptyState).strings ("price:" ++ "A") =
      some (numToString (roundTo2 ((1 : ℚ) / 2 * 100 + 50)), some (emptyState.now + 30)) :=
  getAssetPrice_cache_aside ("A") ((1 : ℚ) / 2) emptyState ("75.5")
    (by norm_num) (by norm_num) rfl

/-- Claim C5: two sequential fault-free `getAssetPrice` calls for the
same asset, the second one `δ < 30` seconds later with the key not
expiring between the calls and no other writer, return the identical
price — on a miss the second call reuses the entry the first call wrote,
through its string round trip. -/
theorem getAssetPrice_twice (assetId : String) (r r' p : ℚ) (st st₁ : RedisState) (δ : ℕ)
    (hr : 0 ≤ r) (hf : st.faults = []) (hδ : δ < 30)
    (h₁ : Trading.getAssetPrice assetId r st = .ok p st₁)
    (hlive : getRaw (advanceTime st₁ δ) ("price:" ++ assetId) =
      getRaw st₁ ("price:" ++ assetId)) :
    ∃ st₂, Trading.getAssetPrice assetId r' (advanceTime st₁ δ) = .ok p st₂ := by
  have hmiss : ∀ st₁' : RedisState, st₁' = missedState assetId r st →
      p = roundTo2 (r * 100 + 50) →
      ∃ st₂, Trading.getAssetPrice assetId r' (advanceTime st₁' δ) = .ok p st₂ := by
    intro st₁' he hp
    subst he
    have hsum : (0 : ℚ) ≤ r * 100 + 50 := by linarith
    have hp100 : p = (((round ((r * 100 + 50) * 100)).toNat : ℕ) : ℚ) / 100 := by
      rw [hp, roundTo2_eq_natCast hsum]
    have hg : getRaw (advanceTime (missedState assetId r st) δ) ("price:" ++ assetId) =
        some (numToString p) := by
      rw [getRaw_advance]
      simp only [show (missedState assetId r st).strings =
          strSet st.strings ("price:" ++ assetId)
            (numToString (roundTo2 (r * 100 + 50))) (some (st.now + 30)) from rfl,
        strLookup_strSet, if_pos rfl, if_true,
        show (missedState assetId r st).now = st.now from rfl]
      rw [if_pos (show liveAt (st.now + δ) (some (st.now + 30)) = true from by
        simp only [liveAt, decide_eq_true_eq]
        omega), hp]
    have hne : numToString p ≠ "" := by
      rw [hp100, numToString_hundredths]
      exact hundredthsToString_ne_empty _
    have hrun := getAssetPrice_run_hit assetId r' (advanceTime (missedState assetId r st) δ)
      (numToString p) hf hg hne
    rw [hp100, jsParseFloat_numToString] at hrun
    rw [hp100]
    exact ⟨_, hrun⟩
  cases hv : getRaw st ("price:" ++ assetId) with
  | none =>
    rw [getAssetPrice_run_missNone assetId r st hf hv] at h₁
    injection h₁ with hp hst
    exact hmiss st₁ hst.symm hp.symm
  | some v =>
    by_cases hne : v = ""
    · subst hne
      rw [getAssetPrice_run_missEmpty assetId r st hf hv] at h₁
      injection h₁ with hp hst
      exact hmiss st₁ hst.symm hp.symm
    · rw [getAssetPrice_run_hit assetId r st v hf hv hne] at h₁
      injection h₁ with hp hst
      subst hst
      subst hp
      have hg : getRaw (advanceTime
          { st with
              trace := st.trace ++ [RedisOpEvt.get ("price:" ++ assetId)],
              opIdx := st.opIdx + 1 } δ) ("price:" ++ assetId) = some v := by
        rw [hlive]
        exact hv
      exact ⟨_, getAssetPrice_run_hit assetId r' (advanceTime
        { st with
            trace := st.trace ++ [RedisOpEvt.get ("price:" ++ assetId)],
            opIdx := st.opIdx + 1 } δ) v hf hg hne⟩

theorem getAssetPrice_twice_witness :
    ∃ st₂, Trading.getAssetPrice ("A") ((1 : ℚ) / 2)
      (advanceTime (missedState ("A") ((1 : ℚ) / 2) emptyState) 0) =
      .ok (roundTo2 ((1 : ℚ) / 2 * 100 + 50)) st₂ :=
  getAssetPrice_twice ("A") ((1 : ℚ) / 2) ((1 : ℚ) / 2) (roundTo2 ((1 : ℚ) / 2 * 100 + 50))
    emptyState (missedState ("A") ((1 : ℚ) / 2) emptyState) 0 (by norm_num) rfl (by norm_num)
    (getAssetPrice_run_missNone ("A") ((1 : ℚ) / 2) emptyState rfl rfl) rfl
